import Mathlib

/-!
Shallow embedding of the retrieval core in src/find_candidates.py of the
HSE-QA-BOT repository, together with theorems checking the specification
claims about it.

Modelling conventions:
- Machine floats used in similarity computations are modelled as rationals;
  the storage-level float32 representation is modelled bit-exactly as
  32-bit patterns for the blob round-trip functions; the numpy
  normalisation pipeline (linalg.norm and division) is modelled over
  the reals.
- The sqlite tables are modelled as Lean lists of row structures; the
  SHA-1 digest and the sentence-transformer encoder are abstract function
  parameters carried in an environment record, since their internals are
  outside this module.
- A fallible sqlite write is modelled by a boolean flag on the
  environment: when the flag is false the INSERT raises, which the
  embedding renders as an error value, matching the absence of any
  try/except around the write in the source.
- The module-level globals loaded by init_models_once (model, faiss index,
  id array, threshold) are carried in the environment record: all theorems
  about hybrid_search quantify over states after a successful startup.
-/

namespace HseQaBot

/-- Whitespace test for the regex class backslash-s restricted to ASCII text. -/
def isWs (c : Char) : Bool :=
  c == ' ' || c == '\t' || c == '\n' || c == '\x0b' || c == '\x0c' || c == '\r'

/-- Python str.strip: drop whitespace from both ends. -/
def stripWs (l : List Char) : List Char :=
  ((l.dropWhile isWs).reverse.dropWhile isWs).reverse

/-- Replace every maximal run of whitespace by a single space, as
re.sub of the pattern backslash-s-plus with a single space does. -/
def collapseWs : List Char → List Char
  | [] => []
  | [c] => if isWs c then [' '] else [c]
  | c :: c2 :: cs =>
    if isWs c && isWs c2 then collapseWs (c2 :: cs)
    else (if isWs c then ' ' else c) :: collapseWs (c2 :: cs)

/-- norm from find_candidates.py: strip the ends, collapse whitespace runs. -/
def norm (s : String) : String :=
  String.mk (collapseWs (stripWs s.data))

/-- A byte of a stored BLOB. -/
abbrev Byte := Fin 256

/-- A float32 value, represented by its 32-bit pattern, so that
round-trip statements are bit-exact. -/
abbrev Float32 := Fin (2 ^ 32)

/-- Little-endian byte serialisation of one float32, as numpy tobytes emits. -/
def f32ToBytes (x : Float32) : List Byte :=
  [⟨x.val % 256, by omega⟩, ⟨x.val / 256 % 256, by omega⟩,
   ⟨x.val / 65536 % 256, by omega⟩, ⟨x.val / 16777216 % 256, by omega⟩]

/-- Little-endian byte deserialisation of one float32. -/
def bytesToF32 (b0 b1 b2 b3 : Byte) : Float32 :=
  ⟨b0.val + 256 * b1.val + 65536 * b2.val + 16777216 * b3.val, by
    have h0 := b0.isLt
    have h1 := b1.isLt
    have h2 := b2.isLt
    have h3 := b3.isLt
    omega⟩

/-- vec_to_blob from find_candidates.py: numpy tobytes on a float32 array.
The asarray conversion to float32 is the identity on float32 input, which
is what the representation already fixes. -/
def vec_to_blob (v : List Float32) : List Byte :=
  (v.map f32ToBytes).flatten

/-- Read dim float32 values off the front of a byte list, 4 bytes each. -/
def readF32s : ℕ → List Byte → List Float32
  | 0, _ => []
  | n + 1, b0 :: b1 :: b2 :: b3 :: rest => bytesToF32 b0 b1 b2 b3 :: readF32s n rest
  | _ + 1, _ => []

/-- blob_to_vec from find_candidates.py: numpy frombuffer with count dim,
which raises when the buffer holds fewer than dim float32 values and
otherwise reads the first dim values. -/
def blob_to_vec (b : List Byte) (dim : ℕ) : Option (List Float32) :=
  if 4 * dim ≤ b.length then some (readF32s dim b) else none

/-- Inner product of two rational vectors. -/
def dot (u v : List ℚ) : ℚ :=
  (u.zipWith (· * ·) v).sum

/-- Ranking order used by the flat inner-product index: higher similarity
first, ties broken by ascending position (one concrete instance of the
implementation-defined tie order of the index). -/
def simRel (a b : ℚ × ℤ) : Prop :=
  b.1 < a.1 ∨ (a.1 = b.1 ∧ a.2 ≤ b.2)

instance : DecidableRel simRel :=
  fun a b => inferInstanceAs (Decidable (b.1 < a.1 ∨ (a.1 = b.1 ∧ a.2 ≤ b.2)))

instance : IsTrans (ℚ × ℤ) simRel := by
  constructor
  intro a b c hab hbc
  rcases hab with h1 | ⟨h1, h1b⟩ <;> rcases hbc with h2 | ⟨h2, h2b⟩
  · exact Or.inl (lt_trans h2 h1)
  · exact Or.inl (h2 ▸ h1)
  · exact Or.inl (h1 ▸ h2)
  · exact Or.inr ⟨h1.trans h2, le_trans h1b h2b⟩

instance : IsTotal (ℚ × ℤ) simRel := by
  constructor
  intro a b
  rcases lt_trichotomy a.1 b.1 with h | h | h
  · exact Or.inr (Or.inl h)
  · rcases le_total a.2 b.2 with h2 | h2
    · exact Or.inl (Or.inr ⟨h, h2⟩)
    · exact Or.inr (Or.inr ⟨h.symm, h2⟩)
  · exact Or.inl (Or.inl h)

/-- Similarity value the index reports on padding entries when asked for
more neighbours than it holds; such entries carry position -1 and are
filtered out by the caller before use. -/
def faissPadSim : ℚ := -(2 ^ 128)

/-- Every row of the index scored against the query, tagged with its
position. -/
def scoredOf (X : List (List ℚ)) (q : List ℚ) : List (ℚ × ℤ) :=
  X.enum.map (fun p => (dot q p.2, (p.1 : ℤ)))

/-- The scored rows ordered by descending similarity. -/
def sortedScored (X : List (List ℚ)) (q : List ℚ) : List (ℚ × ℤ) :=
  List.insertionSort simRel (scoredOf X q)

/-- Exact inner-product search of a flat index built over the rows of X:
score every row, order by descending similarity, return the first k
(similarity, position) pairs, padded with position -1 when k exceeds the
number of rows. -/
def faissSearchPairs (X : List (List ℚ)) (q : List ℚ) (k : ℕ) : List (ℚ × ℤ) :=
  (sortedScored X q).take k ++
    List.replicate (k - (sortedScored X q).length) (faissPadSim, -1)

/-- One row of the qa table. -/
structure Record where
  id : ℤ
  page : String
  question : String
  answer_text : String
  source_url : String
deriving DecidableEq

/-- One row of the qa_query_cache table. -/
structure CacheEntry where
  query_hash : String
  query_text : String
  created_ts : ℕ
  dim : ℕ
  q_emb : List ℚ
deriving DecidableEq

/-- The qa_query_cache table, most recent write first. -/
abbrev Cache := List CacheEntry

/-- get_cached_query_emb: select the row keyed by the hash and decode its
first dim floats. -/
def get_cached_query_emb (c : Cache) (qh : String) : Option (List ℚ) :=
  (c.find? (fun e => e.query_hash == qh)).map (fun e => e.q_emb.take e.dim)

/-- put_cached_query_emb: INSERT OR REPLACE of the row keyed by the hash;
prepending together with first-match lookup realises the replace
semantics observably. -/
def put_cached_query_emb (now : ℕ) (c : Cache) (qh : String) (qtext : String)
    (emb : List ℚ) : Cache :=
  ⟨qh, qtext, now, emb.length, emb⟩ :: c

/-- query_hash: SHA-1 digest of the normalised text; the digest itself is
an abstract function parameter. -/
def query_hash (sha1 : String → String) (text : String) : String :=
  sha1 (norm text)

/-- Process state after a successful init_models_once, plus the abstract
collaborators of the retrieval engine. -/
structure Env where
  sha1 : String → String
  st_encode : String → List ℚ
  faiss_ids : List ℤ
  faiss_X : List (List ℚ)
  qa : List Record
  sem_thr : ℚ
  top_n : ℕ
  cache_write_ok : Bool
  now : ℕ

/-- The debug dictionary hybrid_search builds up; absent keys are none. -/
structure Dbg where
  sem_thr : Option ℚ := none
  topn_ids : Option (List ℤ) := none
  topn_sims : Option (List ℚ) := none
  best_sim : Option ℚ := none
  rejected : Option Bool := none
  top_ids : Option (List ℤ) := none
deriving DecidableEq

/-- The sqlite failure hybrid_search can raise: a failing write of the
query-embedding cache entry. -/
inductive SearchErr where
  | storageWrite
deriving DecidableEq

/-- The triple hybrid_search returns. -/
abbrev SearchRes := Option Record × List Record × Dbg

instance : DecidableEq (Except SearchErr SearchRes) := fun a b =>
  match a, b with
  | .error x, .error y =>
    if h : x = y then isTrue (by rw [h]) else isFalse (by intro hh; cases hh; exact h rfl)
  | .error _, .ok _ => isFalse (by intro hh; cases hh)
  | .ok _, .error _ => isFalse (by intro hh; cases hh)
  | .ok x, .ok y =>
    if h : x = y then isTrue (by rw [h]) else isFalse (by intro hh; cases hh; exact h rfl)

/-- Observable outcome of one hybrid_search call: the returned triple or
raised error, the cache state afterwards, and instrumentation counters
for encoder invocations and index searches. -/
structure SearchOut where
  res : Except SearchErr SearchRes
  cache : Cache
  encodeCalls : ℕ
  searchCalls : ℕ
deriving DecidableEq

/-- Lookup in the dictionary built by the row_map comprehension: the last
row with the given id wins, absent ids give none. -/
def rowMapGet (rows : List Record) (i : ℤ) : Option Record :=
  (rows.filter (fun r => decide (r.id = i))).getLast?

/-- The batched SELECT over qa with an IN clause listing the ids. The
matching rows come back in table order, not in the order of the id list;
sqlite permits an empty IN list, which matches no row, so an empty id
list yields zero rows rather than an error. -/
def fetch_by_ids (qa : List Record) (ids : List ℤ) : List Record :=
  qa.filter (fun r => decide (r.id ∈ ids))

/-- Indexing the faiss id array with a reported position. -/
def idLookup (ids : List ℤ) (i : ℤ) : ℤ :=
  ids.getD i.toNat 0

/-- The top_ids comprehension: positions other than -1 mapped through the
id array. -/
def topIdsOf (env : Env) (qv : List ℚ) (k : ℕ) : List ℤ :=
  (faissSearchPairs env.faiss_X qv k).filterMap
    (fun p => if p.2 ≠ -1 then some (idLookup env.faiss_ids p.2) else none)

/-- The top_sims comprehension: similarities zipped with positions,
keeping those whose position is not -1. -/
def topSimsOf (env : Env) (qv : List ℚ) (k : ℕ) : List ℚ :=
  (faissSearchPairs env.faiss_X qv k).filterMap
    (fun p => if p.2 ≠ -1 then some p.1 else none)

/-- Candidate list as id-similarity pairs, for stating ranking facts. -/
def topPairsOf (env : Env) (qv : List ℚ) (k : ℕ) : List (ℤ × ℚ) :=
  (faissSearchPairs env.faiss_X qv k).filterMap
    (fun p => if p.2 ≠ -1 then some (idLookup env.faiss_ids p.2, p.1) else none)

/-- best_sim: head of the similarity list, -1 when it is empty. -/
def bestSimOf (env : Env) (qv : List ℚ) (k : ℕ) : ℚ :=
  (topSimsOf env qv k).headD (-1)

/-- The tail of hybrid_search after the query vector is in hand: search
the index, build diagnostics, apply the acceptance gate, fetch and
reorder the accepted records. -/
def afterVec (env : Env) (cache : Cache) (qv : List ℚ) (final_k : ℕ) (enc : ℕ) :
    SearchOut :=
  let k := max final_k env.top_n
  let top_ids := topIdsOf env qv k
  let top_sims := topSimsOf env qv k
  let dbg0 : Dbg :=
    { sem_thr := some env.sem_thr
      topn_ids := some (top_ids.take env.top_n)
      topn_sims := some (top_sims.take env.top_n) }
  if top_ids.isEmpty then ⟨.ok (none, [], dbg0), cache, enc, 1⟩
  else
    let best_sim := top_sims.headD (-1)
    let dbg1 : Dbg := { dbg0 with best_sim := some best_sim }
    if best_sim < env.sem_thr then
      ⟨.ok (none, [], { dbg1 with rejected := some true }), cache, enc, 1⟩
    else
      let dbg2 : Dbg := { dbg1 with rejected := some false }
      let out_ids := top_ids.take final_k
      let rows := fetch_by_ids env.qa out_ids
      let ordered := out_ids.filterMap (fun i => rowMapGet rows i)
      ⟨.ok (ordered.head?, ordered, { dbg2 with top_ids := some out_ids }), cache, enc, 1⟩

/-- Module constant CACHE_QUERY_EMB_TO_DB. -/
def CACHE_QUERY_EMB_TO_DB : Bool := true

/-- hybrid_search from find_candidates.py. The empty-after-normalisation
query returns before any cache, encoder or index activity. On a cache
miss the fresh embedding is written to the cache with no surrounding
error handling, so a failing write raises out of the function before the
index is searched. -/
def hybrid_search (env : Env) (cache : Cache) (query : String) (final_k : ℕ) :
    SearchOut :=
  let q := norm query
  if q = "" then ⟨.ok (none, [], {}), cache, 0, 0⟩
  else
    let qh := query_hash env.sha1 q
    let cached := if CACHE_QUERY_EMB_TO_DB then get_cached_query_emb cache qh else none
    match cached with
    | some qv => afterVec env cache qv final_k 0
    | none =>
      let qv := env.st_encode q
      if CACHE_QUERY_EMB_TO_DB then
        if env.cache_write_ok then
          afterVec env (put_cached_query_emb env.now cache qh q qv) qv final_k 1
        else ⟨.error .storageWrite, cache, 1, 0⟩
      else afterVec env cache qv final_k 1

/-- The query vector a hybrid_search call ends up using: the cached one on
a hit, the freshly encoded one on a miss. -/
def queryVec (env : Env) (c : Cache) (q : String) : List ℚ :=
  match get_cached_query_emb c (query_hash env.sha1 (norm q)) with
  | some v => v
  | none => env.st_encode (norm q)

/-- Cache state after the lookup-or-encode step of hybrid_search. -/
def cacheAfter (env : Env) (c : Cache) (q : String) : Cache :=
  match get_cached_query_emb c (query_hash env.sha1 (norm q)) with
  | some _ => c
  | none =>
    put_cached_query_emb env.now c (query_hash env.sha1 (norm q)) (norm q)
      (env.st_encode (norm q))

/-- Number of encoder invocations of one hybrid_search call past the
empty-query guard. -/
def encCount (env : Env) (c : Cache) (q : String) : ℕ :=
  match get_cached_query_emb c (query_hash env.sha1 (norm q)) with
  | some _ => 0
  | none => 1

/-- The accepted records paired with the similarity of the candidate
each one was resolved from, in ranked order. -/
def rankedOut (env : Env) (qv : List ℚ) (final_k : ℕ) : List (Record × ℚ) :=
  ((topPairsOf env qv (max final_k env.top_n)).take final_k).filterMap
    (fun p => (rowMapGet env.qa p.1).map (fun r => (r, p.2)))

/-- The record list hybrid_search returns on acceptance: the first
final_k candidate ids resolved against the record store in ranked order,
ids absent from the store dropped. -/
def rankedRecords (env : Env) (c : Cache) (q : String) (final_k : ℕ) : List Record :=
  ((topIdsOf env (queryVec env c q) (max final_k env.top_n)).take final_k).filterMap
    (rowMapGet env.qa)

/-- Sum of squares of a real row. -/
def sumSq (r : List ℝ) : ℝ :=
  (r.map (fun x => x ^ 2)).sum

/-- Euclidean norm of a real row, as numpy linalg.norm computes it along
axis 1. -/
noncomputable def rowNorm (r : List ℝ) : ℝ :=
  Real.sqrt (sumSq r)

/-- Treatment one row receives inside l2_normalize_rows: its Euclidean
norm, with zero replaced by 1, divides every entry; the zero test on a
real number is classical. -/
noncomputable def normalizeRow (row : List ℝ) : List ℝ :=
  let n := rowNorm row
  let n2 := @ite ℝ (n = 0) (Classical.propDecidable (n = 0)) 1 n
  row.map (fun x => x / n2)

/-- l2_normalize_rows from find_candidates.py: per-row Euclidean norms,
zero norms replaced by 1, then the elementwise division. -/
noncomputable def l2_normalize_rows (X : List (List ℝ)) : List (List ℝ) :=
  X.map normalizeRow

/-- One row of the qa_vec table; the vector columns are nullable and hold
already-decoded float values of the stored blobs. -/
structure QaVecRow where
  qa_id : ℤ
  model_name : String
  dim : ℕ
  q_vec : Option (List ℝ)
  a_vec : Option (List ℝ)

/-- Comparison ORDER BY qa_id uses. -/
def qaIdLe (a b : QaVecRow) : Prop := a.qa_id ≤ b.qa_id

instance : DecidableRel qaIdLe :=
  fun a b => inferInstanceAs (Decidable (a.qa_id ≤ b.qa_id))

/-- ORDER BY qa_id over a selected row list. -/
def orderByQaId (tbl : List QaVecRow) : List QaVecRow :=
  List.insertionSort qaIdLe tbl

/-- The failure load_all_embeddings raises when no usable vector remains;
the spec names it EmptyIndex. -/
inductive LoadErr where
  | emptyIndex
deriving DecidableEq

/-- Column selection: q_vec when which_vec is the letter q, else a_vec. -/
def vecColumn (which_vec : String) (r : QaVecRow) : Option (List ℝ) :=
  if which_vec = "q" then r.q_vec else r.a_vec

/-- The SELECT with the model_name filter, ordered by qa_id. -/
def matchingRows (tbl : List QaVecRow) (model_name : String) : List QaVecRow :=
  orderByQaId (tbl.filter (fun r => decide (r.model_name = model_name)))

/-- The rows the loader works from: the matching ones, or, when none
matches, the fallback SELECT over the whole table. -/
def selectedRows (tbl : List QaVecRow) (model_name : String) : List QaVecRow :=
  if (matchingRows tbl model_name).isEmpty then orderByQaId tbl
  else matchingRows tbl model_name

/-- The id-and-vector pairs surviving the NULL-blob skip, each blob read
at its recorded dimension. -/
def usableRows (tbl : List QaVecRow) (model_name : String) (which_vec : String) :
    List (ℤ × List ℝ) :=
  (selectedRows tbl model_name).filterMap
    (fun r => (vecColumn which_vec r).map (fun v => (r.qa_id, v.take r.dim)))

/-- load_all_embeddings from find_candidates.py: select the rows whose
model_name matches, fall back to every row when none matches, skip NULL
vectors, read dim floats per blob, fail when nothing usable remains, and
otherwise return the ids next to the L2-normalised stacked matrix. Well
formed stores hold at least dim floats per non-null blob; on shorter
blobs numpy frombuffer raises, which is outside the claims checked here. -/
noncomputable def load_all_embeddings (tbl : List QaVecRow) (model_name : String)
    (which_vec : String) : Except LoadErr (List ℤ × List (List ℝ)) :=
  if (usableRows tbl model_name which_vec).isEmpty then .error .emptyIndex
  else .ok ((usableRows tbl model_name which_vec).map Prod.fst,
    l2_normalize_rows ((usableRows tbl model_name which_vec).map Prod.snd))

/-- Sample record with id 1 for concrete evaluations. -/
def recA : Record :=
  { id := 1, page := "p1", question := "q1", answer_text := "a1", source_url := "u1" }

/-- Sample record with id 2 for concrete evaluations. -/
def recB : Record :=
  { id := 2, page := "p2", question := "q2", answer_text := "a2", source_url := "u2" }

/-- Environment whose single indexed vector is orthogonal to every encoded
query, so the best similarity is 0 and every query is rejected. -/
def envC1 : Env :=
  { sha1 := fun _ => "h", st_encode := fun _ => [1, 0], faiss_ids := [3],
    faiss_X := [[0, 1]], qa := [recA], sem_thr := 1/2, top_n := 2,
    cache_write_ok := true, now := 0 }

/-- Environment with two indexed vectors of similarities 1 and 1/2 whose
ids both resolve in the record store. -/
def envC2 : Env :=
  { sha1 := fun _ => "h", st_encode := fun _ => [1, 0], faiss_ids := [1, 2],
    faiss_X := [[1, 0], [1/2, 0]], qa := [recA, recB], sem_thr := 1/2, top_n := 2,
    cache_write_ok := true, now := 0 }

/-- Environment whose cache writes fail. -/
def envC3 : Env :=
  { sha1 := fun _ => "h", st_encode := fun _ => [1], faiss_ids := [7],
    faiss_X := [[1]], qa := [], sem_thr := 1/2, top_n := 2,
    cache_write_ok := false, now := 0 }

/-- Environment for exercising the query cache. -/
def envC5 : Env :=
  { sha1 := fun _ => "h", st_encode := fun _ => [1], faiss_ids := [4],
    faiss_X := [[1]], qa := [], sem_thr := 1/2, top_n := 1,
    cache_write_ok := true, now := 0 }

/-- Environment with an empty index, for the empty-query guard. -/
def envC6 : Env :=
  { sha1 := fun _ => "h", st_encode := fun _ => [1], faiss_ids := [],
    faiss_X := [], qa := [], sem_thr := 1/2, top_n := 2,
    cache_write_ok := true, now := 0 }

/-- Environment where the second-ranked candidate id 9 is absent from the
record store while id 1 resolves. -/
def envC7 : Env :=
  { sha1 := fun _ => "h", st_encode := fun _ => [1, 0], faiss_ids := [1, 9],
    faiss_X := [[1, 0], [1/2, 0]], qa := [recA], sem_thr := 1/2, top_n := 2,
    cache_write_ok := true, now := 0 }

/-- Environment where the query is accepted but the only candidate id 9 is
absent from the record store. -/
def envC10 : Env :=
  { sha1 := fun _ => "h", st_encode := fun _ => [1], faiss_ids := [9],
    faiss_X := [[1]], qa := [recA], sem_thr := 1/2, top_n := 2,
    cache_write_ok := true, now := 0 }

/-- qa_vec row recorded under model name m. -/
def rowM : QaVecRow :=
  { qa_id := 2, model_name := "m", dim := 1, q_vec := some [1], a_vec := none }

/-- qa_vec row recorded under a different model name. -/
def rowO : QaVecRow :=
  { qa_id := 1, model_name := "other", dim := 1, q_vec := some [2], a_vec := none }

/-- qa_vec row whose vector blobs are NULL. -/
def rowN : QaVecRow :=
  { qa_id := 3, model_name := "m", dim := 1, q_vec := none, a_vec := none }

theorem length_f32ToBytes (x : Float32) : (f32ToBytes x).length = 4 := rfl

theorem vec_to_blob_cons (x : Float32) (v : List Float32) :
    vec_to_blob (x :: v) = f32ToBytes x ++ vec_to_blob v := by
  simp [vec_to_blob]

theorem length_vec_to_blob (v : List Float32) :
    (vec_to_blob v).length = 4 * v.length := by
  induction v with
  | nil => rfl
  | cons x v ih =>
    rw [vec_to_blob_cons, List.length_append, ih, length_f32ToBytes, List.length_cons]
    ring

theorem bytesToF32_f32ToBytes (x : Float32) :
    readF32s 1 (f32ToBytes x) = [x] := by
  have hx := x.isLt
  simp only [f32ToBytes, readF32s, bytesToF32]
  congr 1
  apply Fin.ext
  simp only []
  omega

theorem readF32s_vec_to_blob (v : List Float32) :
    readF32s v.length (vec_to_blob v) = v := by
  induction v with
  | nil => rfl
  | cons x v ih =>
    have hx := x.isLt
    rw [List.length_cons, vec_to_blob_cons]
    simp only [f32ToBytes, List.cons_append, List.nil_append, readF32s, bytesToF32]
    congr 1
    apply Fin.ext
    simp only []
    omega

/-- C8: storing a float32 vector with vec_to_blob and reading it back with
blob_to_vec at the same dimension returns the identical float array. -/
theorem vec_blob_round_trip (v : List Float32) :
    blob_to_vec (vec_to_blob v) v.length = some v := by
  unfold blob_to_vec
  rw [length_vec_to_blob, if_pos (le_refl _), readF32s_vec_to_blob]

/-- C6: a query that is empty after normalisation returns immediately
with no best record, no records, empty diagnostics, an unchanged cache,
and zero encoder and index calls. -/
theorem empty_query_short_circuits (env : Env) (c : Cache) (q : String) (fk : ℕ)
    (h : norm q = "") :
    hybrid_search env c q fk = ⟨.ok (none, [], {}), c, 0, 0⟩ := by
  simp [hybrid_search, h]

theorem empty_query_short_circuits_witness :
    norm (" \t ") = "" ∧
    hybrid_search envC6 [] (" \t ") 5 = ⟨.ok (none, [], {}), [], 0, 0⟩ :=
  ⟨by decide, empty_query_short_circuits envC6 [] (" \t ") 5 (by decide)⟩

/-- C3 counterexample: with a failing cache write, a fresh nonempty query
makes hybrid_search raise the storage error instead of completing with a
search result, so a cache-write failure does fail the search. -/
theorem cache_write_failure_not_swallowed :
    (hybrid_search envC3 [] ("hi") 5).res = .error .storageWrite := by
  rfl

/-- C3 amended: on a cache miss the freshly computed embedding is written
with no surrounding error handling, so a failing write propagates out of
hybrid_search after one encoder call and before any index search, leaving
the cache unchanged. -/
theorem cache_write_failure_aborts_search (env : Env) (c : Cache) (q : String)
    (fk : ℕ) (hq : norm q ≠ "")
    (hmiss : get_cached_query_emb c (query_hash env.sha1 (norm q)) = none)
    (hfail : env.cache_write_ok = false) :
    hybrid_search env c q fk = ⟨.error .storageWrite, c, 1, 0⟩ := by
  simp [hybrid_search, hq, CACHE_QUERY_EMB_TO_DB, hmiss, hfail]

theorem cache_write_failure_aborts_search_witness :
    norm ("hi") ≠ "" ∧
    hybrid_search envC3 [] ("hi") 5 = ⟨.error .storageWrite, [], 1, 0⟩ :=
  ⟨by decide, cache_write_failure_aborts_search envC3 [] ("hi") 5 (by decide) rfl rfl⟩

theorem afterVec_cache (env : Env) (c : Cache) (qv : List ℚ) (fk e : ℕ) :
    (afterVec env c qv fk e).cache = c := by
  simp only [afterVec]
  split
  · rfl
  · split <;> rfl

theorem afterVec_encodeCalls (env : Env) (c : Cache) (qv : List ℚ) (fk e : ℕ) :
    (afterVec env c qv fk e).encodeCalls = e := by
  simp only [afterVec]
  split
  · rfl
  · split <;> rfl

theorem hybrid_eq_afterVec (env : Env) (c : Cache) (q : String) (fk : ℕ)
    (hq : norm q ≠ "") (hw : env.cache_write_ok = true) :
    hybrid_search env c q fk =
      afterVec env (cacheAfter env c q) (queryVec env c q) fk (encCount env c q) := by
  cases hget : get_cached_query_emb c (query_hash env.sha1 (norm q)) with
  | some v =>
    simp [hybrid_search, hq, CACHE_QUERY_EMB_TO_DB, hget, queryVec, cacheAfter, encCount]
  | none =>
    simp [hybrid_search, hq, CACHE_QUERY_EMB_TO_DB, hget, hw, queryVec, cacheAfter,
      encCount]

theorem cacheAfter_populated (env : Env) (c : Cache) (q : String) :
    (get_cached_query_emb (cacheAfter env c q)
      (query_hash env.sha1 (norm q))).isSome = true := by
  unfold cacheAfter
  cases hget : get_cached_query_emb c (query_hash env.sha1 (norm q)) with
  | some v => simp [hget]
  | none =>
    simp [put_cached_query_emb, get_cached_query_emb, List.find?]

/-- C5: queries with the same normalised text share one cache hash, and
once a first call has filled the cache a repeated call finds the entry
and never invokes the encoder. -/
theorem query_cache_hit_skips_encode (env : Env) (c : Cache) (q1 q2 : String)
    (k1 k2 : ℕ) (hw : env.cache_write_ok = true) (hq : norm q1 ≠ "")
    (heq : norm q1 = norm q2) :
    query_hash env.sha1 q1 = query_hash env.sha1 q2 ∧
    (hybrid_search env (hybrid_search env c q1 k1).cache q2 k2).encodeCalls = 0 := by
  have hq2 : norm q2 ≠ "" := heq ▸ hq
  constructor
  · unfold query_hash
    rw [heq]
  · rw [hybrid_eq_afterVec env c q1 k1 hq hw, afterVec_cache]
    have hpop := cacheAfter_populated env c q1
    rw [heq] at hpop
    cases hget : get_cached_query_emb (cacheAfter env c q1)
        (query_hash env.sha1 (norm q2)) with
    | none => rw [hget] at hpop; simp at hpop
    | some v =>
      rw [hybrid_eq_afterVec env (cacheAfter env c q1) q2 k2 hq2 hw,
        afterVec_encodeCalls]
      unfold encCount
      rw [hget]

theorem query_cache_hit_skips_encode_witness :
    norm ("a  b") ≠ "" ∧ norm ("a  b") = norm ("a b") ∧
    (query_hash envC5.sha1 ("a  b") = query_hash envC5.sha1 ("a b") ∧
      (hybrid_search envC5 (hybrid_search envC5 [] ("a  b") 1).cache
        ("a b") 1).encodeCalls = 0) :=
  ⟨by decide, by decide,
    query_cache_hit_skips_encode envC5 [] ("a  b") ("a b") 1 1 rfl (by decide)
      (by decide)⟩

theorem snd_nonneg_of_mem_scored {X : List (List ℚ)} {q : List ℚ} {p : ℚ × ℤ}
    (hp : p ∈ scoredOf X q) : 0 ≤ p.2 := by
  rcases List.mem_map.mp hp with ⟨y, _, rfl⟩
  exact Int.natCast_nonneg y.1

theorem snd_ne_negOne_of_mem_take {X : List (List ℚ)} {q : List ℚ} {k : ℕ} {p : ℚ × ℤ}
    (hp : p ∈ (sortedScored X q).take k) : p.2 ≠ -1 := by
  have h1 : p ∈ sortedScored X q := List.mem_of_mem_take hp
  have h2 : p ∈ scoredOf X q :=
    (List.perm_insertionSort simRel (scoredOf X q)).mem_iff.mp h1
  have h3 := snd_nonneg_of_mem_scored h2
  omega

theorem filterMap_if_ne_eq_map {α : Type} (f : ℚ × ℤ → α) :
    ∀ l : List (ℚ × ℤ), (∀ p ∈ l, p.2 ≠ -1) →
      l.filterMap (fun p => if p.2 ≠ -1 then some (f p) else none) = l.map f := by
  intro l
  induction l with
  | nil => intro _; rfl
  | cons a l ih =>
    intro h
    have ha := h a (List.mem_cons_self a l)
    rw [List.filterMap_cons, ih (fun p hp => h p (List.mem_cons_of_mem a hp))]
    simp [ha]

theorem faiss_filterMap_eq {α : Type} (X : List (List ℚ)) (q : List ℚ) (k : ℕ)
    (f : ℚ × ℤ → α) :
    (faissSearchPairs X q k).filterMap
        (fun p => if p.2 ≠ -1 then some (f p) else none)
      = ((sortedScored X q).take k).map f := by
  unfold faissSearchPairs
  rw [List.filterMap_append]
  have h2 : (List.replicate (k - (sortedScored X q).length)
        ((faissPadSim, -1) : ℚ × ℤ)).filterMap
        (fun p => if p.2 ≠ -1 then some (f p) else none) = [] := by
    simp [List.filterMap_replicate]
  rw [h2, List.append_nil]
  exact filterMap_if_ne_eq_map f _ (fun p hp => snd_ne_negOne_of_mem_take hp)

theorem topIdsOf_eq (env : Env) (qv : List ℚ) (k : ℕ) :
    topIdsOf env qv k
      = ((sortedScored env.faiss_X qv).take k).map
          (fun p => idLookup env.faiss_ids p.2) :=
  faiss_filterMap_eq env.faiss_X qv k _

theorem topSimsOf_eq (env : Env) (qv : List ℚ) (k : ℕ) :
    topSimsOf env qv k
      = ((sortedScored env.faiss_X qv).take k).map (fun p => p.1) :=
  faiss_filterMap_eq env.faiss_X qv k _

theorem topPairsOf_eq (env : Env) (qv : List ℚ) (k : ℕ) :
    topPairsOf env qv k
      = ((sortedScored env.faiss_X qv).take k).map
          (fun p => (idLookup env.faiss_ids p.2, p.1)) :=
  faiss_filterMap_eq env.faiss_X qv k _

theorem topIds_eq_pairs (env : Env) (qv : List ℚ) (k : ℕ) :
    topIdsOf env qv k = (topPairsOf env qv k).map Prod.fst := by
  rw [topIdsOf_eq, topPairsOf_eq, List.map_map]
  rfl

theorem topSims_eq_pairs (env : Env) (qv : List ℚ) (k : ℕ) :
    topSimsOf env qv k = (topPairsOf env qv k).map Prod.snd := by
  rw [topSimsOf_eq, topPairsOf_eq, List.map_map]
  rfl

theorem topSims_sorted (env : Env) (qv : List ℚ) (k : ℕ) :
    List.Pairwise (· ≥ ·) (topSimsOf env qv k) := by
  rw [topSimsOf_eq]
  have hs : List.Pairwise simRel ((sortedScored env.faiss_X qv).take k) :=
    List.Pairwise.sublist (List.take_sublist k _)
      (List.sorted_insertionSort simRel (scoredOf env.faiss_X qv))
  exact List.Pairwise.map _
    (fun a b hab => by
      rcases hab with h | ⟨h, _⟩
      · exact le_of_lt h
      · exact le_of_eq h.symm) hs

theorem topIds_nil_iff (env : Env) (qv : List ℚ) (k : ℕ) :
    topIdsOf env qv k = [] ↔ topSimsOf env qv k = [] := by
  rw [topIds_eq_pairs, topSims_eq_pairs]
  simp

theorem rowMapGet_fetch (qa : List Record) (ids : List ℤ) (i : ℤ) (hi : i ∈ ids) :
    rowMapGet (fetch_by_ids qa ids) i = rowMapGet qa i := by
  unfold fetch_by_ids rowMapGet
  rw [List.filter_filter]
  congr 1
  apply List.filter_congr
  intro r _
  by_cases h : r.id = i
  · simp [h, hi]
  · simp [h]

theorem takeIds_filterMap_eq_rankedOut (env : Env) (qv : List ℚ) (fk : ℕ) :
    ((topIdsOf env qv (max fk env.top_n)).take fk).filterMap (rowMapGet env.qa)
      = (rankedOut env qv fk).map Prod.fst := by
  rw [topIds_eq_pairs, rankedOut, ← List.map_take, List.filterMap_map,
    List.map_filterMap]
  apply List.filterMap_congr
  intro p _
  cases h : rowMapGet env.qa p.1 <;> simp [Function.comp, h]

theorem rankedOut_sublist_sims {α β γ : Type} (h : α → Option γ) (g : α → β) :
    ∀ l : List α,
      (l.filterMap (fun a => (h a).map (fun _ => g a))).Sublist (l.map g) := by
  intro l
  induction l with
  | nil => simp
  | cons a l ih =>
    cases hh : h a with
    | none =>
      simp only [List.filterMap_cons, hh, Option.map_none, List.map_cons]
      exact List.Sublist.cons (g a) ih
    | some c =>
      simp only [List.filterMap_cons, hh, Option.map_some, List.map_cons]
      exact List.Sublist.cons₂ (g a) ih

theorem rankedOut_sims_sorted (env : Env) (qv : List ℚ) (fk : ℕ) :
    List.Pairwise (· ≥ ·) ((rankedOut env qv fk).map Prod.snd) := by
  have hsub : ((rankedOut env qv fk).map Prod.snd).Sublist
      (((topPairsOf env qv (max fk env.top_n)).take fk).map Prod.snd) := by
    rw [rankedOut, List.map_filterMap]
    have heq : ∀ p : ℤ × ℚ,
        ((rowMapGet env.qa p.1).map (fun r => (r, p.2))).map Prod.snd
          = (rowMapGet env.qa p.1).map (fun _ => p.2) := by
      intro p
      cases h : rowMapGet env.qa p.1 <;> simp [h]
    rw [List.filterMap_congr (fun p _ => heq p)]
    exact rankedOut_sublist_sims (fun p => rowMapGet env.qa p.1) Prod.snd _
  have hsorted : List.Pairwise (· ≥ ·)
      (((topPairsOf env qv (max fk env.top_n)).take fk).map Prod.snd) := by
    rw [List.map_take, ← topSims_eq_pairs]
    exact List.Pairwise.sublist (List.take_sublist fk _)
      (topSims_sorted env qv (max fk env.top_n))
  exact List.Pairwise.sublist hsub hsorted

theorem isEmpty_false_of_ne_nil {α : Type} {l : List α} (h : l ≠ []) :
    ¬ (l.isEmpty = true) := by
  cases l with
  | nil => exact absurd rfl h
  | cons a l => simp

theorem afterVec_empty (env : Env) (c : Cache) (qv : List ℚ) (fk e : ℕ)
    (h : topIdsOf env qv (max fk env.top_n) = []) :
    afterVec env c qv fk e =
      ⟨.ok (none, [],
        { sem_thr := some env.sem_thr
          topn_ids := some ((topIdsOf env qv (max fk env.top_n)).take env.top_n)
          topn_sims := some ((topSimsOf env qv (max fk env.top_n)).take env.top_n) }),
        c, e, 1⟩ := by
  simp only [afterVec]
  rw [if_pos (by rw [h]; rfl)]

theorem afterVec_rejected (env : Env) (c : Cache) (qv : List ℚ) (fk e : ℕ)
    (hne : topIdsOf env qv (max fk env.top_n) ≠ [])
    (hlt : bestSimOf env qv (max fk env.top_n) < env.sem_thr) :
    afterVec env c qv fk e =
      ⟨.ok (none, [],
        { sem_thr := some env.sem_thr
          topn_ids := some ((topIdsOf env qv (max fk env.top_n)).take env.top_n)
          topn_sims := some ((topSimsOf env qv (max fk env.top_n)).take env.top_n)
          best_sim := some (bestSimOf env qv (max fk env.top_n))
          rejected := some true }), c, e, 1⟩ := by
  have hlt2 : (topSimsOf env qv (max fk env.top_n)).headD (-1) < env.sem_thr := hlt
  simp only [afterVec]
  rw [if_neg (isEmpty_false_of_ne_nil hne), if_pos hlt2]
  rfl

theorem afterVec_accepted (env : Env) (c : Cache) (qv : List ℚ) (fk e : ℕ)
    (hne : topIdsOf env qv (max fk env.top_n) ≠ [])
    (hge : ¬ bestSimOf env qv (max fk env.top_n) < env.sem_thr) :
    afterVec env c qv fk e =
      ⟨.ok ((((topIdsOf env qv (max fk env.top_n)).take fk).filterMap
              (rowMapGet env.qa)).head?,
            ((topIdsOf env qv (max fk env.top_n)).take fk).filterMap
              (rowMapGet env.qa),
        { sem_thr := some env.sem_thr
          topn_ids := some ((topIdsOf env qv (max fk env.top_n)).take env.top_n)
          topn_sims := some ((topSimsOf env qv (max fk env.top_n)).take env.top_n)
          best_sim := some (bestSimOf env qv (max fk env.top_n))
          rejected := some false
          top_ids := some ((topIdsOf env qv (max fk env.top_n)).take fk) }),
        c, e, 1⟩ := by
  have hge2 : ¬ (topSimsOf env qv (max fk env.top_n)).headD (-1) < env.sem_thr := hge
  have hcongr : ((topIdsOf env qv (max fk env.top_n)).take fk).filterMap
      (fun i => rowMapGet (fetch_by_ids env.qa
        ((topIdsOf env qv (max fk env.top_n)).take fk)) i)
      = ((topIdsOf env qv (max fk env.top_n)).take fk).filterMap (rowMapGet env.qa) :=
    List.filterMap_congr (fun i hi => rowMapGet_fetch env.qa _ i hi)
  simp only [afterVec]
  rw [if_neg (isEmpty_false_of_ne_nil hne), if_neg hge2, hcongr]
  rfl

theorem hybrid_accepted_core (env : Env) (c : Cache) (q : String) (fk : ℕ)
    (hq : norm q ≠ "") (hw : env.cache_write_ok = true)
    (hne : topIdsOf env (queryVec env c q) (max fk env.top_n) ≠ [])
    (hge : ¬ bestSimOf env (queryVec env c q) (max fk env.top_n) < env.sem_thr) :
    (hybrid_search env c q fk).res = .ok ((rankedRecords env c q fk).head?,
      rankedRecords env c q fk,
      { sem_thr := some env.sem_thr
        topn_ids := some ((topIdsOf env (queryVec env c q)
          (max fk env.top_n)).take env.top_n)
        topn_sims := some ((topSimsOf env (queryVec env c q)
          (max fk env.top_n)).take env.top_n)
        best_sim := some (bestSimOf env (queryVec env c q) (max fk env.top_n))
        rejected := some false
        top_ids := some ((topIdsOf env (queryVec env c q)
          (max fk env.top_n)).take fk) }) := by
  rw [hybrid_eq_afterVec env c q fk hq hw,
    afterVec_accepted env (cacheAfter env c q) (queryVec env c q) fk
      (encCount env c q) hne hge]
  rfl

/-- C1: past a successful cache step, when the index produced candidates
and the best similarity is strictly below the threshold, hybrid_search
returns no best record and no records, and its diagnostics carry the
threshold, the candidate pool (first TOP_N ids and similarities), the
best similarity, and the rejected mark. -/
theorem hybrid_search_rejects_below_threshold (env : Env) (c : Cache) (q : String)
    (fk : ℕ) (hq : norm q ≠ "") (hw : env.cache_write_ok = true)
    (hne : topIdsOf env (queryVec env c q) (max fk env.top_n) ≠ [])
    (hlt : bestSimOf env (queryVec env c q) (max fk env.top_n) < env.sem_thr) :
    (hybrid_search env c q fk).res = .ok (none, [],
      { sem_thr := some env.sem_thr
        topn_ids := some ((topIdsOf env (queryVec env c q)
          (max fk env.top_n)).take env.top_n)
        topn_sims := some ((topSimsOf env (queryVec env c q)
          (max fk env.top_n)).take env.top_n)
        best_sim := some (bestSimOf env (queryVec env c q) (max fk env.top_n))
        rejected := some true }) := by
  rw [hybrid_eq_afterVec env c q fk hq hw,
    afterVec_rejected env (cacheAfter env c q) (queryVec env c q) fk
      (encCount env c q) hne hlt]

theorem envC1_queryVec : queryVec envC1 [] ("hi") = [1, 0] := by
  simp [queryVec, get_cached_query_emb, envC1]

theorem envC1_topIds : topIdsOf envC1 [1, 0] (max 1 envC1.top_n) = [3] := by
  norm_num [topIdsOf, faissSearchPairs, sortedScored, scoredOf, dot, List.enum,
    List.enumFrom, List.insertionSort, List.orderedInsert, simRel, idLookup, envC1,
    faissPadSim, List.filterMap_cons, List.getD]

theorem envC1_bestSim : bestSimOf envC1 [1, 0] (max 1 envC1.top_n) = 0 := by
  norm_num [bestSimOf, topSimsOf, faissSearchPairs, sortedScored, scoredOf, dot,
    List.enum, List.enumFrom, List.insertionSort, List.orderedInsert, simRel,
    envC1, faissPadSim]

theorem hybrid_search_rejects_below_threshold_witness :
    topIdsOf envC1 (queryVec envC1 [] ("hi")) (max 1 envC1.top_n) ≠ [] ∧
    bestSimOf envC1 (queryVec envC1 [] ("hi")) (max 1 envC1.top_n) < envC1.sem_thr ∧
    (hybrid_search envC1 [] ("hi") 1).res = .ok (none, [],
      { sem_thr := some envC1.sem_thr
        topn_ids := some ((topIdsOf envC1 (queryVec envC1 [] ("hi"))
          (max 1 envC1.top_n)).take envC1.top_n)
        topn_sims := some ((topSimsOf envC1 (queryVec envC1 [] ("hi"))
          (max 1 envC1.top_n)).take envC1.top_n)
        best_sim := some (bestSimOf envC1 (queryVec envC1 [] ("hi"))
          (max 1 envC1.top_n))
        rejected := some true }) :=
  ⟨by rw [envC1_queryVec, envC1_topIds]; decide,
    by rw [envC1_queryVec, envC1_bestSim]; norm_num [envC1],
    hybrid_search_rejects_below_threshold envC1 [] ("hi") 1 (by decide) rfl
      (by rw [envC1_queryVec, envC1_topIds]; decide)
      (by rw [envC1_queryVec, envC1_bestSim]; norm_num [envC1])⟩

theorem afterVec_rows (env : Env) (c : Cache) (qv : List ℚ) (fk e : ℕ)
    {b : Option Record} {rows : List Record} {d : Dbg}
    (h : (afterVec env c qv fk e).res = .ok (b, rows, d)) :
    rows.length ≤ fk ∧
    (rows = [] ∨ rows = (rankedOut env qv fk).map Prod.fst) := by
  by_cases h1 : topIdsOf env qv (max fk env.top_n) = []
  · rw [afterVec_empty env c qv fk e h1] at h
    simp only [Except.ok.injEq, Prod.mk.injEq] at h
    obtain ⟨_, hrows, _⟩ := h
    exact ⟨by simp [← hrows], Or.inl hrows.symm⟩
  · by_cases h2 : bestSimOf env qv (max fk env.top_n) < env.sem_thr
    · rw [afterVec_rejected env c qv fk e h1 h2] at h
      simp only [Except.ok.injEq, Prod.mk.injEq] at h
      obtain ⟨_, hrows, _⟩ := h
      exact ⟨by simp [← hrows], Or.inl hrows.symm⟩
    · rw [afterVec_accepted env c qv fk e h1 h2] at h
      simp only [Except.ok.injEq, Prod.mk.injEq] at h
      obtain ⟨_, hrows, _⟩ := h
      constructor
      · rw [← hrows]
        refine le_trans (List.length_filterMap_le _ _) ?_
        rw [List.length_take]
        exact min_le_left _ _
      · right
        rw [← hrows]
        exact takeIds_filterMap_eq_rankedOut env qv fk

/-- C2: whenever hybrid_search returns a record list, the list holds at
most final_k records, each resolved from a candidate, and the similarity
ranking pairing the returned records is monotonically non-increasing. -/
theorem hybrid_search_topk_sorted (env : Env) (c : Cache) (q : String) (fk : ℕ)
    {b : Option Record} {rows : List Record} {d : Dbg}
    (h : (hybrid_search env c q fk).res = .ok (b, rows, d)) :
    rows.length ≤ fk ∧
    List.Pairwise (· ≥ ·) ((rankedOut env (queryVec env c q) fk).map Prod.snd) ∧
    (rows = [] ∨ rows = (rankedOut env (queryVec env c q) fk).map Prod.fst) := by
  have main : rows.length ≤ fk ∧
      (rows = [] ∨ rows = (rankedOut env (queryVec env c q) fk).map Prod.fst) := by
    by_cases hq : norm q = ""
    · have heq : hybrid_search env c q fk = ⟨.ok (none, [], {}), c, 0, 0⟩ := by
        simp [hybrid_search, hq]
      rw [heq] at h
      simp only [Except.ok.injEq, Prod.mk.injEq] at h
      obtain ⟨_, hrows, _⟩ := h
      exact ⟨by simp [← hrows], Or.inl hrows.symm⟩
    · cases hget : get_cached_query_emb c (query_hash env.sha1 (norm q)) with
      | some v =>
        have hv : queryVec env c q = v := by
          unfold queryVec
          rw [hget]
        have heq : hybrid_search env c q fk = afterVec env c v fk 0 := by
          simp [hybrid_search, hq, CACHE_QUERY_EMB_TO_DB, hget]
        rw [heq] at h
        rw [hv]
        exact afterVec_rows env c v fk 0 h
      | none =>
        cases hwv : env.cache_write_ok with
        | false =>
          simp [hybrid_search, hq, CACHE_QUERY_EMB_TO_DB, hget, hwv] at h
        | true =>
          have hv : queryVec env c q = env.st_encode (norm q) := by
            unfold queryVec
            rw [hget]
          have heq : hybrid_search env c q fk
              = afterVec env
                  (put_cached_query_emb env.now c (query_hash env.sha1 (norm q))
                    (norm q) (env.st_encode (norm q)))
                  (env.st_encode (norm q)) fk 1 := by
            simp [hybrid_search, hq, CACHE_QUERY_EMB_TO_DB, hget, hwv]
          rw [heq] at h
          rw [hv]
          exact afterVec_rows env _ _ fk 1 h
  exact ⟨main.1, rankedOut_sims_sorted env (queryVec env c q) fk, main.2⟩

theorem envC2_queryVec : queryVec envC2 [] ("hi") = [1, 0] := by
  simp [queryVec, get_cached_query_emb, envC2]

theorem envC2_topIds : topIdsOf envC2 [1, 0] (max 2 envC2.top_n) = [1, 2] := by
  norm_num [topIdsOf, faissSearchPairs, sortedScored, scoredOf, dot, List.enum,
    List.enumFrom, List.insertionSort, List.orderedInsert, simRel, idLookup, envC2,
    faissPadSim, List.filterMap_cons, List.getD]

theorem envC2_bestSim : bestSimOf envC2 [1, 0] (max 2 envC2.top_n) = 1 := by
  norm_num [bestSimOf, topSimsOf, faissSearchPairs, sortedScored, scoredOf, dot,
    List.enum, List.enumFrom, List.insertionSort, List.orderedInsert, simRel,
    envC2, faissPadSim]

theorem envC2_ranked : rankedRecords envC2 [] ("hi") 2 = [recA, recB] := by
  rw [rankedRecords, envC2_queryVec, envC2_topIds]
  decide

theorem hybrid_search_topk_sorted_witness :
    rankedRecords envC2 [] ("hi") 2 = [recA, recB] ∧
    ((rankedRecords envC2 [] ("hi") 2).length ≤ 2 ∧
      List.Pairwise (· ≥ ·)
        ((rankedOut envC2 (queryVec envC2 [] ("hi")) 2).map Prod.snd) ∧
      (rankedRecords envC2 [] ("hi") 2 = [] ∨
        rankedRecords envC2 [] ("hi") 2
          = (rankedOut envC2 (queryVec envC2 [] ("hi")) 2).map Prod.fst)) :=
  ⟨envC2_ranked,
    hybrid_search_topk_sorted envC2 [] ("hi") 2
      (hybrid_accepted_core envC2 [] ("hi") 2 (by decide) rfl
        (by rw [envC2_queryVec, envC2_topIds]; decide)
        (by rw [envC2_queryVec, envC2_bestSim]; norm_num [envC2]))⟩

/-- C7: on acceptance the first final_k candidate ids, in ranked order,
are resolved through the record store; the returned rows follow the
ranked id order, ids missing from the store are dropped without error,
and the returned rows agree with the ranked candidate pairing. -/
theorem accepted_records_ordered (env : Env) (c : Cache) (q : String) (fk : ℕ)
    (hq : norm q ≠ "") (hw : env.cache_write_ok = true)
    (hne : topIdsOf env (queryVec env c q) (max fk env.top_n) ≠ [])
    (hge : ¬ bestSimOf env (queryVec env c q) (max fk env.top_n) < env.sem_thr) :
    (hybrid_search env c q fk).res = .ok ((rankedRecords env c q fk).head?,
      rankedRecords env c q fk,
      { sem_thr := some env.sem_thr
        topn_ids := some ((topIdsOf env (queryVec env c q)
          (max fk env.top_n)).take env.top_n)
        topn_sims := some ((topSimsOf env (queryVec env c q)
          (max fk env.top_n)).take env.top_n)
        best_sim := some (bestSimOf env (queryVec env c q) (max fk env.top_n))
        rejected := some false
        top_ids := some ((topIdsOf env (queryVec env c q)
          (max fk env.top_n)).take fk) }) ∧
    rankedRecords env c q fk
      = (rankedOut env (queryVec env c q) fk).map Prod.fst :=
  ⟨hybrid_accepted_core env c q fk hq hw hne hge,
    takeIds_filterMap_eq_rankedOut env (queryVec env c q) fk⟩

theorem envC7_queryVec : queryVec envC7 [] ("hi") = [1, 0] := by
  simp [queryVec, get_cached_query_emb, envC7]

theorem envC7_topIds : topIdsOf envC7 [1, 0] (max 2 envC7.top_n) = [1, 9] := by
  norm_num [topIdsOf, faissSearchPairs, sortedScored, scoredOf, dot, List.enum,
    List.enumFrom, List.insertionSort, List.orderedInsert, simRel, idLookup, envC7,
    faissPadSim, List.filterMap_cons, List.getD]

theorem envC7_bestSim : bestSimOf envC7 [1, 0] (max 2 envC7.top_n) = 1 := by
  norm_num [bestSimOf, topSimsOf, faissSearchPairs, sortedScored, scoredOf, dot,
    List.enum, List.enumFrom, List.insertionSort, List.orderedInsert, simRel,
    envC7, faissPadSim]

theorem envC7_ranked : rankedRecords envC7 [] ("hi") 2 = [recA] := by
  rw [rankedRecords, envC7_queryVec, envC7_topIds]
  decide

theorem accepted_records_ordered_witness :
    rankedRecords envC7 [] ("hi") 2 = [recA] ∧
    ((hybrid_search envC7 [] ("hi") 2).res = .ok ((rankedRecords envC7 [] ("hi") 2).head?,
      rankedRecords envC7 [] ("hi") 2,
      { sem_thr := some envC7.sem_thr
        topn_ids := some ((topIdsOf envC7 (queryVec envC7 [] ("hi"))
          (max 2 envC7.top_n)).take envC7.top_n)
        topn_sims := some ((topSimsOf envC7 (queryVec envC7 [] ("hi"))
          (max 2 envC7.top_n)).take envC7.top_n)
        best_sim := some (bestSimOf envC7 (queryVec envC7 [] ("hi"))
          (max 2 envC7.top_n))
        rejected := some false
        top_ids := some ((topIdsOf envC7 (queryVec envC7 [] ("hi"))
          (max 2 envC7.top_n)).take 2) }) ∧
      rankedRecords envC7 [] ("hi") 2
        = (rankedOut envC7 (queryVec envC7 [] ("hi")) 2).map Prod.fst) :=
  ⟨envC7_ranked,
    accepted_records_ordered envC7 [] ("hi") 2 (by decide) rfl
      (by rw [envC7_queryVec, envC7_topIds]; decide)
      (by rw [envC7_queryVec, envC7_bestSim]; norm_num [envC7])⟩

/-- C10: an accepted query all of whose selected candidate ids are absent
from the record store returns no best record and an empty record list
while the diagnostics still carry rejected = false, so an empty record
list does not imply rejection. -/
theorem accepted_all_missing_empty_not_rejected (env : Env) (c : Cache) (q : String)
    (fk : ℕ) (hq : norm q ≠ "") (hw : env.cache_write_ok = true)
    (hne : topIdsOf env (queryVec env c q) (max fk env.top_n) ≠ [])
    (hge : ¬ bestSimOf env (queryVec env c q) (max fk env.top_n) < env.sem_thr)
    (hmiss : ∀ i ∈ (topIdsOf env (queryVec env c q) (max fk env.top_n)).take fk,
      rowMapGet env.qa i = none) :
    (hybrid_search env c q fk).res = .ok (none, [],
      { sem_thr := some env.sem_thr
        topn_ids := some ((topIdsOf env (queryVec env c q)
          (max fk env.top_n)).take env.top_n)
        topn_sims := some ((topSimsOf env (queryVec env c q)
          (max fk env.top_n)).take env.top_n)
        best_sim := some (bestSimOf env (queryVec env c q) (max fk env.top_n))
        rejected := some false
        top_ids := some ((topIdsOf env (queryVec env c q)
          (max fk env.top_n)).take fk) }) := by
  have hnil : rankedRecords env c q fk = [] := by
    unfold rankedRecords
    exact List.filterMap_eq_nil_iff.mpr hmiss
  have h := hybrid_accepted_core env c q fk hq hw hne hge
  rw [hnil] at h
  simpa using h

theorem envC10_queryVec : queryVec envC10 [] ("hi") = [1] := by
  simp [queryVec, get_cached_query_emb, envC10]

theorem envC10_topIds : topIdsOf envC10 [1] (max 1 envC10.top_n) = [9] := by
  norm_num [topIdsOf, faissSearchPairs, sortedScored, scoredOf, dot, List.enum,
    List.enumFrom, List.insertionSort, List.orderedInsert, simRel, idLookup, envC10,
    faissPadSim, List.filterMap_cons, List.getD]

theorem envC10_bestSim : bestSimOf envC10 [1] (max 1 envC10.top_n) = 1 := by
  norm_num [bestSimOf, topSimsOf, faissSearchPairs, sortedScored, scoredOf, dot,
    List.enum, List.enumFrom, List.insertionSort, List.orderedInsert, simRel,
    envC10, faissPadSim]

theorem accepted_all_missing_empty_not_rejected_witness :
    (∀ i ∈ (topIdsOf envC10 (queryVec envC10 [] ("hi")) (max 1 envC10.top_n)).take 1,
      rowMapGet envC10.qa i = none) ∧
    (hybrid_search envC10 [] ("hi") 1).res = .ok (none, [],
      { sem_thr := some envC10.sem_thr
        topn_ids := some ((topIdsOf envC10 (queryVec envC10 [] ("hi"))
          (max 1 envC10.top_n)).take envC10.top_n)
        topn_sims := some ((topSimsOf envC10 (queryVec envC10 [] ("hi"))
          (max 1 envC10.top_n)).take envC10.top_n)
        best_sim := some (bestSimOf envC10 (queryVec envC10 [] ("hi"))
          (max 1 envC10.top_n))
        rejected := some false
        top_ids := some ((topIdsOf envC10 (queryVec envC10 [] ("hi"))
          (max 1 envC10.top_n)).take 1) }) ∧
    (hybrid_search envC10 [] ("hi") 0).res = .ok (none, [],
      { sem_thr := some envC10.sem_thr
        topn_ids := some ((topIdsOf envC10 (queryVec envC10 [] ("hi"))
          (max 0 envC10.top_n)).take envC10.top_n)
        topn_sims := some ((topSimsOf envC10 (queryVec envC10 [] ("hi"))
          (max 0 envC10.top_n)).take envC10.top_n)
        best_sim := some (bestSimOf envC10 (queryVec envC10 [] ("hi"))
          (max 0 envC10.top_n))
        rejected := some false
        top_ids := some ((topIdsOf envC10 (queryVec envC10 [] ("hi"))
          (max 0 envC10.top_n)).take 0) }) :=
  ⟨by rw [envC10_queryVec, envC10_topIds]; decide,
    accepted_all_missing_empty_not_rejected envC10 [] ("hi") 1 (by decide) rfl
      (by rw [envC10_queryVec, envC10_topIds]; decide)
      (by rw [envC10_queryVec, envC10_bestSim]; norm_num [envC10])
      (by rw [envC10_queryVec, envC10_topIds]; decide),
    accepted_all_missing_empty_not_rejected envC10 [] ("hi") 0 (by decide) rfl
      (by rw [envC10_queryVec,
            show max 0 envC10.top_n = max 1 envC10.top_n from rfl, envC10_topIds]
          decide)
      (by rw [envC10_queryVec,
            show max 0 envC10.top_n = max 1 envC10.top_n from rfl, envC10_bestSim]
          norm_num [envC10])
      (by simp)⟩

theorem sumSq_nonneg (r : List ℝ) : 0 ≤ sumSq r := by
  unfold sumSq
  apply List.sum_nonneg
  intro x hx
  rcases List.mem_map.mp hx with ⟨y, _, rfl⟩
  exact sq_nonneg y

theorem sumSq_eq_zero_iff (r : List ℝ) : sumSq r = 0 ↔ ∀ x ∈ r, x = 0 := by
  induction r with
  | nil => simp [sumSq]
  | cons a r ih =>
    have hr := sumSq_nonneg r
    have ha := sq_nonneg a
    have hcons : sumSq (a :: r) = a ^ 2 + sumSq r := by
      simp [sumSq]
    constructor
    · intro h
      rw [hcons] at h
      have ha0 : a ^ 2 = 0 := by linarith
      have hr0 : sumSq r = 0 := by linarith
      intro x hx
      rcases List.mem_cons.mp hx with rfl | hx
      · exact pow_eq_zero_iff (by norm_num) |>.mp ha0
      · exact ih.mp hr0 x hx
    · intro h
      rw [hcons, ih.mpr (fun x hx => h x (List.mem_cons_of_mem a hx)),
        h a (List.mem_cons_self a r)]
      norm_num

theorem rowNorm_eq_zero_iff (r : List ℝ) : rowNorm r = 0 ↔ ∀ x ∈ r, x = 0 := by
  unfold rowNorm
  rw [Real.sqrt_eq_zero (sumSq_nonneg r)]
  exact sumSq_eq_zero_iff r

theorem sumSq_map_div (r : List ℝ) (c : ℝ) :
    sumSq (r.map (fun x => x / c)) = sumSq r / c ^ 2 := by
  induction r with
  | nil => simp [sumSq]
  | cons a r ih =>
    have h1 : sumSq ((a :: r).map (fun x => x / c))
        = (a / c) ^ 2 + sumSq (r.map (fun x => x / c)) := by
      simp [sumSq]
    have h2 : sumSq (a :: r) = a ^ 2 + sumSq r := by
      simp [sumSq]
    rw [h1, h2, ih]
    ring

theorem normalizeRow_zero {row : List ℝ} (h : ∀ x ∈ row, x = 0) :
    normalizeRow row = row := by
  simp only [normalizeRow]
  rw [if_pos ((rowNorm_eq_zero_iff row).mpr h)]
  simp

theorem normalizeRow_unit {row : List ℝ} (h : ¬ ∀ x ∈ row, x = 0) :
    rowNorm (normalizeRow row) = 1 := by
  have hn0 : rowNorm row ≠ 0 := fun hc => h ((rowNorm_eq_zero_iff row).mp hc)
  have hs0 : sumSq row ≠ 0 := fun hc => h ((sumSq_eq_zero_iff row).mp hc)
  simp only [normalizeRow]
  rw [if_neg hn0]
  unfold rowNorm
  rw [sumSq_map_div]
  have hsq : rowNorm row ^ 2 = sumSq row := Real.sq_sqrt (sumSq_nonneg row)
  unfold rowNorm at hsq
  rw [hsq, div_self hs0, Real.sqrt_one]

/-- C9: l2_normalize_rows is total: it keeps the row count, returns every
all-zero row unchanged because the zero norm divisor is replaced by 1,
and scales every row with a nonzero Euclidean norm to unit norm. -/
theorem l2_normalize_rows_total (X : List (List ℝ)) :
    (l2_normalize_rows X).length = X.length ∧
    ∀ row ∈ X, normalizeRow row ∈ l2_normalize_rows X ∧
      ((∀ x ∈ row, x = 0) → normalizeRow row = row) ∧
      (¬ (∀ x ∈ row, x = 0) → rowNorm (normalizeRow row) = 1) := by
  refine ⟨List.length_map X normalizeRow, fun row hrow => ⟨?_, ?_, ?_⟩⟩
  · exact List.mem_map_of_mem normalizeRow hrow
  · exact normalizeRow_zero
  · exact normalizeRow_unit

theorem l2_normalize_rows_total_witness :
    (l2_normalize_rows [[(0:ℝ), 0], [3, 4]]).length = 2 ∧
    normalizeRow [(0:ℝ), 0] = [0, 0] ∧
    rowNorm (normalizeRow [(3:ℝ), 4]) = 1 :=
  ⟨(l2_normalize_rows_total [[(0:ℝ), 0], [3, 4]]).1,
    ((l2_normalize_rows_total [[(0:ℝ), 0], [3, 4]]).2 [0, 0] (by simp)).2.1
      (by intro x hx; rcases List.mem_cons.mp hx with rfl | hx2
          · rfl
          · simpa using hx2),
    ((l2_normalize_rows_total [[(0:ℝ), 0], [3, 4]]).2 [3, 4] (by simp)).2.2
      (by intro h; exact absurd (h 3 (by simp)) (by norm_num))⟩

theorem matchingRows_isEmpty (tbl : List QaVecRow) (mn : String) :
    (matchingRows tbl mn).isEmpty
      = (tbl.filter (fun r => decide (r.model_name = mn))).isEmpty := by
  unfold matchingRows orderByQaId
  cases h : tbl.filter (fun r => decide (r.model_name = mn)) with
  | nil => rfl
  | cons a l =>
    have hperm := List.perm_insertionSort qaIdLe (a :: l)
    cases hs : List.insertionSort qaIdLe (a :: l) with
    | nil =>
      rw [hs] at hperm
      exact absurd hperm.symm (by simp)
    | cons b m => rfl

/-- C4: load_all_embeddings selects the rows matching the requested model
name ordered by id, falls back to every row when none matches, skips rows
with NULL vectors, fails with EmptyIndex exactly when no usable vector
remains, and otherwise returns the ids of the usable rows next to the
L2-normalised stack of their vectors. -/
theorem load_all_embeddings_spec (tbl : List QaVecRow) (mn wv : String) :
    ((tbl.filter (fun r => decide (r.model_name = mn))).isEmpty = false →
      selectedRows tbl mn
        = orderByQaId (tbl.filter (fun r => decide (r.model_name = mn)))) ∧
    ((tbl.filter (fun r => decide (r.model_name = mn))).isEmpty = true →
      selectedRows tbl mn = orderByQaId tbl) ∧
    (load_all_embeddings tbl mn wv = .error .emptyIndex ↔
      ∀ r ∈ selectedRows tbl mn, vecColumn wv r = none) ∧
    (∀ ids X, load_all_embeddings tbl mn wv = .ok (ids, X) →
      ids = (usableRows tbl mn wv).map Prod.fst ∧
      X = l2_normalize_rows ((usableRows tbl mn wv).map Prod.snd)) := by
  have hempty : (usableRows tbl mn wv).isEmpty = true ↔
      ∀ r ∈ selectedRows tbl mn, vecColumn wv r = none := by
    rw [List.isEmpty_iff]
    unfold usableRows
    rw [List.filterMap_eq_nil_iff]
    constructor
    · intro h r hr
      have h2 := h r hr
      rwa [Option.map_eq_none'] at h2
    · intro h r hr
      rw [h r hr]
      rfl
  refine ⟨?_, ?_, ?_, ?_⟩
  · intro h
    unfold selectedRows
    rw [if_neg (by rw [matchingRows_isEmpty, h]; exact Bool.false_ne_true)]
    rfl
  · intro h
    unfold selectedRows
    rw [if_pos (by rw [matchingRows_isEmpty, h])]
  · unfold load_all_embeddings
    constructor
    · intro h
      split at h
      · next hcond => exact hempty.mp hcond
      · exact absurd h (by simp)
    · intro h
      rw [if_pos (hempty.mpr h)]
  · intro ids X h
    unfold load_all_embeddings at h
    split at h
    · exact absurd h (by simp)
    · injection h with h2
      exact ⟨congrArg Prod.fst h2.symm, congrArg Prod.snd h2.symm⟩

theorem load_all_embeddings_spec_witness :
    load_all_embeddings [rowM, rowO] ("m") ("q")
      = .ok ([2], l2_normalize_rows [[(1:ℝ)]]) ∧
    load_all_embeddings [rowN] ("m") ("q") = .error .emptyIndex ∧
    ([2] : List ℤ) = (usableRows [rowM, rowO] ("m") ("q")).map Prod.fst :=
  ⟨by
    have hu : usableRows [rowM, rowO] ("m") ("q") = [(2, [(1:ℝ)])] := by
      simp [usableRows, selectedRows, matchingRows, orderByQaId, vecColumn,
        rowM, rowO, List.insertionSort, List.orderedInsert, qaIdLe]
    simp [load_all_embeddings, hu],
   (load_all_embeddings_spec [rowN] ("m") ("q")).2.2.1.mpr
     (by
       intro r hr
       have hsel : selectedRows [rowN] ("m") = [rowN] := by
         simp [selectedRows, matchingRows, orderByQaId, rowN,
           List.insertionSort, List.orderedInsert, qaIdLe]
       rw [hsel] at hr
       rcases List.mem_cons.mp hr with rfl | hr2
       · rfl
       · simp at hr2),
   by
     have h := (load_all_embeddings_spec [rowM, rowO] ("m") ("q")).2.2.2
     have hu : usableRows [rowM, rowO] ("m") ("q") = [(2, [(1:ℝ)])] := by
       simp [usableRows, selectedRows, matchingRows, orderByQaId, vecColumn,
         rowM, rowO, List.insertionSort, List.orderedInsert, qaIdLe]
     rw [hu]
     rfl⟩

end HseQaBot
